import Mathlib

/-!
Verification development for the OIDC login handshake of `vaultrs`
(`src/login/oidc.rs`).

The source couples a `tiny_http` redirect listener with a two-phase
orchestrator (`OIDCLogin::login` / `OIDCCallback::callback`).  We embed the
code shallowly:

* request/query data is modelled at the byte level (`Bytes := List Nat`,
  each entry an octet), matching the byte-oriented parsing done by the
  `url` and `form_urlencoded` crates the source calls;
* the listener loop body (`oidc.rs` lines 72-98) becomes a pure fold over
  the list of requests delivered by `server.incoming_requests()`;
* the orchestrator's effectful steps (backend auth-URL request, socket
  bind, task spawn, token exchange) become oracle functions plus an
  explicit event trace, with `unwrap`/`expect` panics modelled as a
  distinguished outcome;
* the lifecycle of the spawned `spawn_blocking` task and its socket is a
  small labelled transition system.
-/

namespace VaultOidc

/-- Octet strings: each element is one byte (kept as `Nat`; all octets the
theorems touch are < 256). -/
abbrev Bytes := List Nat

/-- Encode an ASCII string literal as its byte list.  Used only for ASCII
literals (where `Char.toNat` agrees with the UTF-8 encoding the Rust
source operates on). -/
def asciiBytes (s : String) : Bytes := s.data.map Char.toNat

/-! ## Query-pair parsing (`url::Url::query_pairs`, oidc.rs line 75)

`query_pairs()` runs `form_urlencoded::parse` over the URL's stored query
bytes: split on `&`, skip empty pieces, split each piece at the first `=`
(missing `=` gives an empty value), then decode name and value by first
replacing `+` with space and then percent-decoding. -/

/-- Hex digit value of a byte for percent-decoding (both cases accepted),
as in the `percent-encoding` crate. -/
def hexVal (b : Nat) : Option Nat :=
  if 0x30 ≤ b ∧ b ≤ 0x39 then some (b - 0x30)
  else if 0x41 ≤ b ∧ b ≤ 0x46 then some (b - 0x41 + 10)
  else if 0x61 ≤ b ∧ b ≤ 0x66 then some (b - 0x61 + 10)
  else none

/-- `form_urlencoded`'s `replace_plus`: `+` (0x2B) becomes space (0x20). -/
def replacePlus (l : Bytes) : Bytes :=
  l.map fun b => if b = 0x2B then 0x20 else b

/-- Percent-decoding as in the `percent-encoding` crate: `%` followed by
two hex digits yields the denoted byte; otherwise the `%` is passed
through literally and scanning resumes at the next byte. -/
def percentDecode : Bytes → Bytes
  | [] => []
  | 0x25 :: h1 :: h2 :: rest2 =>
    match hexVal h1, hexVal h2 with
    | some a, some c => (16 * a + c) :: percentDecode rest2
    | _, _ => 0x25 :: percentDecode (h1 :: h2 :: rest2)
  | b :: rest => b :: percentDecode rest

/-- `form_urlencoded`'s byte decoding: replace `+`, then percent-decode. -/
def formDecode (l : Bytes) : Bytes := percentDecode (replacePlus l)

/-- Split a byte string on a separator byte, keeping empty pieces
(the shape produced by Rust's `split`/`splitn` iteration). -/
def splitOnByte (sep : Nat) : Bytes → List Bytes
  | [] => [[]]
  | b :: rest =>
    if b = sep then [] :: splitOnByte sep rest
    else
      match splitOnByte sep rest with
      | [] => [[b]]
      | piece :: rest' => (b :: piece) :: rest'

/-- Split a piece at the first `=` (0x3D): name before, value after; a
piece without `=` has an empty value (`splitn(2, '=')` with
`unwrap_or` of the empty slice). -/
def splitFirstEq : Bytes → Bytes × Bytes
  | [] => ([], [])
  | b :: rest =>
    if b = 0x3D then ([], rest)
    else
      let nv := splitFirstEq rest
      (b :: nv.1, nv.2)

/-- `form_urlencoded::parse` over the stored query bytes: the ordered list
of decoded (name, value) pairs.  Empty pieces between `&`s produce no
pair. -/
def queryPairs (q : Bytes) : List (Bytes × Bytes) :=
  (splitOnByte 0x26 q).filterMap fun piece =>
    if piece.isEmpty then none
    else
      let nv := splitFirstEq piece
      some (formDecode nv.1, formDecode nv.2)

/-! ## The `HashMap` the pairs are collected into (oidc.rs line 75)

`collect::<HashMap<_, _>>()` inserts the pairs in iteration order;
inserting an existing key replaces its value.  We model the map as an
association list with exactly that insert, and lookup as `find?` on the
key. -/

/-- `HashMap::insert`: replace the value of an existing key, otherwise add
the new entry. -/
def mapInsert (m : List (Bytes × Bytes)) (k v : Bytes) : List (Bytes × Bytes) :=
  if m.any (fun p => decide (p.1 = k)) then
    m.map fun p => if p.1 = k then (k, v) else p
  else m ++ [(k, v)]

/-- `HashMap::from_iter` / `collect()`: fold the pairs through insert. -/
def collectMap (l : List (Bytes × Bytes)) : List (Bytes × Bytes) :=
  l.foldl (fun acc p => mapInsert acc p.1 p.2) []

/-- `HashMap::get`. -/
def mapGet (m : List (Bytes × Bytes)) (k : Bytes) : Option Bytes :=
  (m.find? fun p => decide (p.1 = k)).map Prod.snd

/-- The parameters captured from the redirect
(struct `OIDCCallbackParams`, oidc.rs lines 29-34). -/
structure OIDCCallbackParams where
  code : Bytes
  nonce : Bytes
  state : Bytes
deriving DecidableEq

/-- `OIDCCallbackParams::default()`: all three fields empty. -/
def defaultParams : OIDCCallbackParams := ⟨[], [], []⟩

def codeKey : Bytes := asciiBytes "code"
def nonceKey : Bytes := asciiBytes "nonce"
def stateKey : Bytes := asciiBytes "state"

/-- The query extraction of oidc.rs lines 74-91: collect the query pairs
into a `HashMap`, then read `code`, `nonce`, `state`, each defaulting to
the empty string (`.cloned().or_else(|| Some("".to_string())).unwrap()`). -/
def extractParams (q : Bytes) : OIDCCallbackParams :=
  { code := (mapGet (collectMap (queryPairs q)) codeKey).getD []
    nonce := (mapGet (collectMap (queryPairs q)) nonceKey).getD []
    state := (mapGet (collectMap (queryPairs q)) stateKey).getD [] }

/-- Left-biased choice on options (explicit form of `Option.or`, used to
state the map lemmas). -/
def oElse {α : Type} (a b : Option α) : Option α :=
  match a with
  | some v => some v
  | none => b

/-- Specification device: the value attached to the *last* pair carrying
the given key, if any. -/
def lastValue : List (Bytes × Bytes) → Bytes → Option Bytes
  | [], _ => none
  | p :: rest, k => oElse (lastValue rest k) (if p.1 = k then some p.2 else none)

/-- Field selector of the captured triple by parameter name. -/
def paramField (p : OIDCCallbackParams) (k : Bytes) : Bytes :=
  if k = codeKey then p.code else if k = nonceKey then p.nonce else p.state

/-! ## Resolving the request target (`base.join(request.url())`, oidc.rs line 74)

`request.url()` is the raw request-target string from the HTTP request
line (tiny_http stores it verbatim).  The listener resolves it against
`base = http://localhost:{port}` with `url::Url::join(...).unwrap()` and
then only reads the resolved URL's query.  We model `join` as returning
that query (or a parse error, on which the `unwrap` panics):

* a target beginning `//` is a protocol-relative reference: the WHATWG
  parser skips further slashes, reads the authority up to `/ \ ? #`,
  takes the host as the part after the last `@`, and fails on an empty
  host or on a `[`-bracketed host that is not a valid IPv6 literal (the
  model folds every bracketed host into this error; no theorem below
  relies on a successful bracketed-host parse);
* any other target (origin-form `/path?query`, or a plain relative
  reference) resolves with its query being the bytes after the first `?`,
  truncated at the first `#`, with the WHATWG query percent-encode set
  applied to the stored query (absolute-form targets carrying their own
  authority are not modelled; no theorem below touches them). -/

inductive ParseErr where
  | emptyHost
  | invalidIpv6Address
deriving DecidableEq

instance {ε α : Type} [DecidableEq ε] [DecidableEq α] : DecidableEq (Except ε α) := fun a b =>
  match a, b with
  | .error x, .error y =>
    match decEq x y with
    | isTrue h => isTrue (h ▸ rfl)
    | isFalse h => isFalse fun hc => h (Except.error.inj hc)
  | .ok x, .ok y =>
    match decEq x y with
    | isTrue h => isTrue (h ▸ rfl)
    | isFalse h => isFalse fun hc => h (Except.ok.inj hc)
  | .error _, .ok _ => isFalse fun hc => Except.noConfusion hc
  | .ok _, .error _ => isFalse fun hc => Except.noConfusion hc

/-- Everything before the first `#` (a fragment is not part of the query). -/
def takeUntilHash (l : Bytes) : Bytes := l.takeWhile fun b => decide (b ≠ 0x23)

/-- Everything after the first `?`, or empty when there is none. -/
def afterFirstQmark : Bytes → Bytes
  | [] => []
  | b :: rest => if b = 0x3F then rest else afterFirstQmark rest

def hexDigitUpper (n : Nat) : Nat := if n < 10 then 0x30 + n else 0x41 + (n - 10)

/-- The WHATWG query percent-encode set for special (http) URLs: C0
controls, space, `"`, `'`, `<`, `>` and non-ASCII/DEL are stored
percent-encoded; everything else is stored verbatim. -/
def queryEncodeByte (b : Nat) : Bytes :=
  if b ≤ 0x20 ∨ b = 0x22 ∨ b = 0x27 ∨ b = 0x3C ∨ b = 0x3E ∨ 0x7F ≤ b then
    [0x25, hexDigitUpper (b / 16 % 16), hexDigitUpper (b % 16)]
  else [b]

/-- The stored query of a relative reference resolved against the base. -/
def queryOfRelative (l : Bytes) : Bytes :=
  (afterFirstQmark (takeUntilHash l)).flatMap queryEncodeByte

/-- WHATWG special-authority-ignore-slashes: skip `/` and `\`. -/
def dropWhileSlashes (l : Bytes) : Bytes :=
  l.dropWhile fun b => decide (b = 0x2F ∨ b = 0x5C)

/-- The authority runs until `/`, `\`, `?` or `#`. -/
def authorityOf (l : Bytes) : Bytes :=
  l.takeWhile fun b => decide (b ≠ 0x2F ∧ b ≠ 0x5C ∧ b ≠ 0x3F ∧ b ≠ 0x23)

/-- The host is the authority part after the last `@` (userinfo). -/
def hostPart (auth : Bytes) : Bytes := (splitOnByte 0x40 auth).getLastD []

/-- `base.join(target)` restricted to the query component the listener
consumes (see the section comment for the modelled subset). -/
def urlJoin (input : Bytes) : Except ParseErr Bytes :=
  if input.take 2 = [0x2F, 0x2F] then
    let rest := dropWhileSlashes (input.drop 2)
    let auth := authorityOf rest
    let tail := rest.drop auth.length
    let host := hostPart auth
    if host = [] then .error .emptyHost
    else if host.head? = some 0x5B then .error .invalidIpv6Address
    else .ok (queryOfRelative tail)
  else .ok (queryOfRelative input)

/-- An origin-form request target: begins with `/` but not `//`. -/
def isOriginForm (t : Bytes) : Bool :=
  decide (t.take 1 = [0x2F]) && !decide (t.take 2 = [0x2F, 0x2F])

/-! ## The listener loop (oidc.rs lines 71-99)

`spawn_blocking` runs `for request in server.incoming_requests() { ... }`.
Each iteration resolves the target (`.unwrap()` panics on a parse error),
overwrites all three fields of `result` with the extracted parameters,
responds with the fixed body `"Success!"` (`.expect` aside, modelled as
succeeding), and calls `server.unblock()`.  tiny_http's `unblock` appends
a shutdown sentinel *behind* any already-queued requests, so the iterator
ends only once the sentinel is reached: the loop runs once per request
delivered before that, and `result` is whatever the last delivered
request left in it. -/

/-- Resolve one request's target and extract the parameters
(the body of one loop iteration up to the response). -/
def handleRequest (r : Bytes) : Except ParseErr OIDCCallbackParams :=
  match urlJoin r with
  | .error e => .error e
  | .ok q => .ok (extractParams q)

/-- Outcome of the spawned listener task over the delivered requests:
either the final `result` together with the responses written, or a panic
(with the responses written before it). -/
inductive LoopOutcome where
  | done (params : OIDCCallbackParams) (responses : List Bytes)
  | panicked (responses : List Bytes)
deriving DecidableEq

/-- The fixed success response body. -/
def successBody : Bytes := asciiBytes "Success!"

/-- The listener loop as a fold over the delivered requests, starting
from `OIDCCallbackParams::default()`. -/
def listenLoop : OIDCCallbackParams → List Bytes → LoopOutcome
  | acc, [] => .done acc []
  | _, r :: rs =>
    match handleRequest r with
    | .error _ => .panicked []
    | .ok p =>
      match listenLoop p rs with
      | .done q resp => .done q (successBody :: resp)
      | .panicked resp => .panicked (successBody :: resp)

/-! ## The orchestrator `OIDCLogin::login` (oidc.rs lines 55-105)

The effectful collaborators become oracles: `auth` is
`crate::auth::oidc::auth` (redirect URL and optional role to either a
`ClientError` or the `auth_url`), `bind` is `Server::http` on the bind
address.  `login` computes the port (default 8250), the redirect URL
`http://localhost:{port}/oidc/callback` (via `base.join("oidc/callback")`
on the base, rendered here directly), calls `auth` (the `?` operator
returns its error), then binds (`.unwrap()` panics on failure), then
spawns the listener.  The event trace records, in order, which effects
ran. -/

structure OIDCLogin where
  port : Option Nat
  role : Option Bytes

/-- The value `login` returns on success (struct `OIDCCallback`, with the
task handle represented by the listener model above). -/
structure OIDCCallbackHandle where
  url : Bytes
deriving DecidableEq

inductive LoginEvent where
  | authRequest (redirect : Bytes) (role : Option Bytes)
  | bindAttempt (addr : Bytes)
  | spawnListener
deriving DecidableEq

inductive LoginOutcome where
  | ok (cb : OIDCCallbackHandle)
  | failed (e : Bytes)
  | panicked
deriving DecidableEq

/-- Decimal ASCII digits of a number (for interpolated port numbers). -/
def natDigits (n : Nat) : Bytes := (Nat.toDigits 10 n).map Char.toNat

/-- `base.join("oidc/callback")` on `http://localhost:{port}`, serialised:
the redirect URL handed to the backend. -/
def redirectUrl (port : Nat) : Bytes :=
  asciiBytes "http://localhost:" ++ natDigits port ++ asciiBytes "/oidc/callback"

/-- The bind address `127.0.0.1:{port}` handed to `Server::http`. -/
def bindAddr (port : Nat) : Bytes :=
  asciiBytes "127.0.0.1:" ++ natDigits port

/-- `OIDCLogin::login` over the `auth` and `bind` oracles, returning the
outcome and the ordered trace of effects performed. -/
def login (cfg : OIDCLogin)
    (auth : Bytes → Option Bytes → Except Bytes Bytes)
    (bind : Bytes → Except Unit Unit) :
    LoginOutcome × List LoginEvent :=
  match auth (redirectUrl (cfg.port.getD 8250)) cfg.role with
  | .error e => (.failed e, [.authRequest (redirectUrl (cfg.port.getD 8250)) cfg.role])
  | .ok authUrl =>
    match bind (bindAddr (cfg.port.getD 8250)) with
    | .error _ =>
      (.panicked, [.authRequest (redirectUrl (cfg.port.getD 8250)) cfg.role,
                   .bindAttempt (bindAddr (cfg.port.getD 8250))])
    | .ok _ =>
      (.ok ⟨authUrl⟩,
       [.authRequest (redirectUrl (cfg.port.getD 8250)) cfg.role,
        .bindAttempt (bindAddr (cfg.port.getD 8250)), .spawnListener])

/-! ## `OIDCCallback::callback` (oidc.rs lines 108-125)

`callback` awaits the listener handle; `handle.await` yields `Err` when
the task panicked, and the source's `.unwrap()` turns that into a panic
of `callback` itself.  On `Ok(result)` it calls
`crate::auth::oidc::callback(client, mount, state, nonce, code)` once and
returns that call's `Result` verbatim.  The exchange oracle stands for
the backend call; the second component of the result is the list of
exchange invocations (arguments in the order state, nonce, code). -/

def callbackRun {E A : Type} (joinResult : Except Unit OIDCCallbackParams)
    (exchange : Bytes → Bytes → Bytes → Except E A) :
    Except Unit (Except E A) × List (Bytes × Bytes × Bytes) :=
  match joinResult with
  | .error _ => (.error (), [])
  | .ok r => (.ok (exchange r.state r.nonce r.code), [(r.state, r.nonce, r.code)])

/-! ## Lifecycle of the spawned task and its socket

The `Server` (and with it the listening socket) is moved into the
`spawn_blocking` closure, so it is dropped exactly when the closure
returns.  Per tokio's documented semantics, dropping the returned
`JoinHandle` *detaches* the task — `spawn_blocking` closures cannot be
cancelled once running — so the only transition that releases the socket
is the task itself finishing (a request arriving and the loop
terminating).  States track whether the task still runs, whether the
caller has dropped the handle, and whether the socket is still bound. -/

structure ListenerTaskState where
  taskRunning : Bool
  handleDropped : Bool
  socketBound : Bool
deriving DecidableEq

/-- Right after `login` returns: task running, handle held, socket bound. -/
def initialTaskState : ListenerTaskState :=
  { taskRunning := true, handleDropped := false, socketBound := true }

/-- The possible transitions of the listener task's lifecycle. -/
inductive TaskStep : ListenerTaskState → ListenerTaskState → Prop where
  | dropHandle (s : ListenerTaskState) (h : s.handleDropped = false) :
      TaskStep s { s with handleDropped := true }
  | completeRequest (s : ListenerTaskState) (h : s.taskRunning = true) :
      TaskStep s { s with taskRunning := false, socketBound := false }

/-! ## Helper lemmas -/

theorem oElse_none {α : Type} (a : Option α) : oElse a none = a := by
  cases a <;> rfl

theorem oElse_assoc {α : Type} (x y z : Option α) :
    oElse (oElse x y) z = oElse x (oElse y z) := by
  cases x <;> rfl

theorem find?_cons_eq {α : Type} (p : α → Bool) (a : α) (l : List α) :
    List.find? p (a :: l) = if p a then some a else List.find? p l := by
  cases h : p a
  · rw [List.find?_cons_of_neg _ (by simp [h])]
    simp
  · rw [List.find?_cons_of_pos _ h]
    simp

theorem find?_map_replace (m : List (Bytes × Bytes)) (k0 v0 k : Bytes) :
    ((m.map fun p => if p.1 = k0 then (k0, v0) else p).find? fun p => decide (p.1 = k)) =
      if k0 = k then (m.find? fun p => decide (p.1 = k0)).map fun _ => (k0, v0)
      else m.find? fun p => decide (p.1 = k) := by
  induction m with
  | nil => by_cases h : k0 = k <;> simp [h]
  | cons a m ih =>
    simp only [List.map_cons, find?_cons_eq]
    by_cases hp : a.1 = k0 <;> by_cases hk : k0 = k <;> by_cases hak : a.1 = k <;>
      simp_all

theorem mapGet_mapInsert (m : List (Bytes × Bytes)) (k0 v0 k : Bytes) :
    mapGet (mapInsert m k0 v0) k = if k0 = k then some v0 else mapGet m k := by
  unfold mapGet mapInsert
  by_cases hany : (m.any fun p => decide (p.1 = k0)) = true
  · rw [if_pos hany, find?_map_replace]
    by_cases hk : k0 = k
    · rw [if_pos hk, if_pos hk]
      obtain ⟨x, hx⟩ := Option.isSome_iff_exists.mp
        (List.find?_isSome.mpr (List.any_eq_true.mp hany))
      rw [hx]
      rfl
    · rw [if_neg hk, if_neg hk]
  · rw [if_neg hany, List.find?_append]
    have hnone : (m.find? fun p => decide (p.1 = k0)) = none := by
      rw [List.find?_eq_none]
      intro x hx hpx
      exact hany (List.any_eq_true.mpr ⟨x, hx, hpx⟩)
    by_cases hk : k0 = k
    · subst hk
      rw [hnone, if_pos rfl]
      simp
    · rw [if_neg hk]
      have hsingle : (List.find? (fun p => decide (p.1 = k)) [(k0, v0)]) = none := by
        rw [List.find?_eq_none]
        intro x hx
        simp at hx
        simp [hx, hk]
      rw [hsingle]
      cases hfind : m.find? fun p => decide (p.1 = k) <;> rfl

theorem mapGet_foldl (l : List (Bytes × Bytes)) :
    ∀ (m : List (Bytes × Bytes)) (k : Bytes),
      mapGet (l.foldl (fun acc p => mapInsert acc p.1 p.2) m) k
        = oElse (lastValue l k) (mapGet m k) := by
  induction l with
  | nil => intro m k; rfl
  | cons a l ih =>
    intro m k
    rw [List.foldl_cons, ih, mapGet_mapInsert]
    show oElse (lastValue l k) _
      = oElse (oElse (lastValue l k) (if a.1 = k then some a.2 else none)) (mapGet m k)
    rw [oElse_assoc]
    by_cases ha : a.1 = k <;> cases hl : lastValue l k <;> simp [ha, oElse]

theorem mapGet_collectMap (l : List (Bytes × Bytes)) (k : Bytes) :
    mapGet (collectMap l) k = lastValue l k := by
  unfold collectMap
  rw [mapGet_foldl]
  show oElse (lastValue l k) none = _
  exact oElse_none _

theorem extractParams_lastValue (q : Bytes) :
    extractParams q
      = { code := (lastValue (queryPairs q) codeKey).getD []
          nonce := (lastValue (queryPairs q) nonceKey).getD []
          state := (lastValue (queryPairs q) stateKey).getD [] } := by
  unfold extractParams
  rw [mapGet_collectMap, mapGet_collectMap, mapGet_collectMap]

theorem splitOnByte_cons (sep b : Nat) (rest : Bytes) :
    splitOnByte sep (b :: rest)
      = if b = sep then [] :: splitOnByte sep rest
        else
          match splitOnByte sep rest with
          | [] => [[b]]
          | piece :: rest' => (b :: piece) :: rest' := rfl

theorem splitOnByte_ne_nil (sep : Nat) (l : Bytes) : splitOnByte sep l ≠ [] := by
  induction l with
  | nil => simp [splitOnByte]
  | cons b rest ih =>
    rw [splitOnByte_cons]
    by_cases hb : b = sep
    · simp [hb]
    · rw [if_neg hb]
      cases h : splitOnByte sep rest <;> simp

theorem splitOnByte_append (sep : Nat) (q r : Bytes) :
    splitOnByte sep (q ++ sep :: r) = splitOnByte sep q ++ splitOnByte sep r := by
  induction q with
  | nil =>
    rw [List.nil_append, splitOnByte_cons, if_pos rfl]
    rfl
  | cons b q ih =>
    rw [List.cons_append, splitOnByte_cons sep b (q ++ sep :: r), splitOnByte_cons sep b q]
    by_cases hb : b = sep
    · rw [if_pos hb, if_pos hb, ih, List.cons_append]
    · obtain ⟨piece, rest', hqe⟩ : ∃ piece rest', splitOnByte sep q = piece :: rest' := by
        cases h : splitOnByte sep q with
        | nil => exact absurd h (splitOnByte_ne_nil sep q)
        | cons piece rest' => exact ⟨piece, rest', rfl⟩
      rw [if_neg hb, if_neg hb, ih, hqe, List.cons_append]
      rfl

theorem queryPairs_append (q r : Bytes) :
    queryPairs (q ++ 0x26 :: r) = queryPairs q ++ queryPairs r := by
  unfold queryPairs
  rw [splitOnByte_append, List.filterMap_append]

theorem lastValue_cons (p : Bytes × Bytes) (rest : List (Bytes × Bytes)) (k : Bytes) :
    lastValue (p :: rest) k
      = oElse (lastValue rest k) (if p.1 = k then some p.2 else none) := rfl

theorem lastValue_append (l1 l2 : List (Bytes × Bytes)) (k : Bytes) :
    lastValue (l1 ++ l2) k = oElse (lastValue l2 k) (lastValue l1 k) := by
  induction l1 with
  | nil => rw [List.nil_append]; exact (oElse_none _).symm
  | cons a l1 ih =>
    rw [List.cons_append, lastValue_cons, ih, oElse_assoc, lastValue_cons]

theorem lastValue_eq_none (l : List (Bytes × Bytes)) (k : Bytes)
    (h : ∀ p ∈ l, p.1 ≠ k) : lastValue l k = none := by
  induction l with
  | nil => rfl
  | cons a l ih =>
    rw [lastValue_cons, ih fun p hp => h p (List.mem_cons_of_mem a hp),
      if_neg (h a (List.mem_cons_self a l))]
    rfl

theorem lastValue_isSome_of_mem (l : List (Bytes × Bytes)) (k v : Bytes)
    (h : (k, v) ∈ l) : (lastValue l k).isSome = true := by
  induction l with
  | nil => cases h
  | cons a l ih =>
    rw [lastValue_cons]
    rcases List.mem_cons.mp h with ha | hl
    · cases htail : lastValue l k <;> simp [oElse, ← ha]
    · cases htail : lastValue l k
      · rw [htail] at ih; cases ih hl
      · simp [oElse, htail]

theorem lastValue_some_mem (l : List (Bytes × Bytes)) (k w : Bytes)
    (h : lastValue l k = some w) : ∃ p ∈ l, p.1 = k ∧ p.2 = w := by
  induction l with
  | nil => cases h
  | cons a l ih =>
    rw [lastValue_cons] at h
    cases htail : lastValue l k with
    | some w' =>
      rw [htail] at h
      obtain ⟨p, hp, hpk, hpv⟩ := ih (htail.trans (by simpa [oElse] using h))
      exact ⟨p, List.mem_cons_of_mem a hp, hpk, hpv⟩
    | none =>
      rw [htail] at h
      by_cases ha : a.1 = k
      · refine ⟨a, List.mem_cons_self a l, ha, ?_⟩
        simpa [oElse, ha] using h
      · simp [oElse, ha] at h

theorem lastValue_eq_some (l : List (Bytes × Bytes)) (k v : Bytes)
    (hmem : (k, v) ∈ l) (huniq : ∀ p ∈ l, p.1 = k → p.2 = v) :
    lastValue l k = some v := by
  cases hl : lastValue l k with
  | none =>
    have := lastValue_isSome_of_mem l k v hmem
    rw [hl] at this
    cases this
  | some w =>
    obtain ⟨p, hp, hpk, hpv⟩ := lastValue_some_mem l k w hl
    rw [← hpv, huniq p hp hpk]

theorem urlJoin_not_protocol_relative (t : Bytes) (h : t.take 2 ≠ [0x2F, 0x2F]) :
    urlJoin t = .ok (queryOfRelative t) := by
  unfold urlJoin
  rw [if_neg h]

/-! ## Claim theorems -/

/-- C1.  The loop body of the spawned listener overwrites `result.code`,
`result.nonce` and `result.state` for every request the iterator
delivers, so when a second request is delivered before the `unblock`
sentinel ends the iteration (tiny_http queues the sentinel behind
already-accepted requests), the second request replaces the first
capture: with the real redirect followed by a second request carrying
only `code=evil`, the task's result is `(code=evil, nonce="", state="")`
instead of the first request's triple.  This refutes the claim that a
second incoming request cannot alter the already-captured result. -/
theorem c1_second_request_overwrites :
    listenLoop defaultParams [asciiBytes "/oidc/callback?code=abc&state=xyz&nonce=123"]
      = .done ⟨asciiBytes "abc", asciiBytes "123", asciiBytes "xyz"⟩ [successBody]
    ∧ listenLoop defaultParams
        [asciiBytes "/oidc/callback?code=abc&state=xyz&nonce=123",
         asciiBytes "/oidc/callback?code=evil"]
      = .done ⟨asciiBytes "evil", [], []⟩ [successBody, successBody] := by
  constructor <;> decide

/-- C2.  For every stored query string: a parameter among
`code`/`nonce`/`state` that never occurs leaves its field as the empty
string (the capture never fails); a parameter that occurs with a single
value `v` is captured as exactly `v`; and appending further pairs none
of which carries one of the three names leaves the captured triple
unchanged. -/
theorem c2_query_capture (q extra : Bytes)
    (hextra : ∀ p ∈ queryPairs extra, p.1 ≠ codeKey ∧ p.1 ≠ nonceKey ∧ p.1 ≠ stateKey) :
    ((∀ p ∈ queryPairs q, p.1 ≠ codeKey) → (extractParams q).code = [])
    ∧ ((∀ p ∈ queryPairs q, p.1 ≠ nonceKey) → (extractParams q).nonce = [])
    ∧ ((∀ p ∈ queryPairs q, p.1 ≠ stateKey) → (extractParams q).state = [])
    ∧ (∀ v, (codeKey, v) ∈ queryPairs q →
        (∀ p ∈ queryPairs q, p.1 = codeKey → p.2 = v) → (extractParams q).code = v)
    ∧ (∀ v, (nonceKey, v) ∈ queryPairs q →
        (∀ p ∈ queryPairs q, p.1 = nonceKey → p.2 = v) → (extractParams q).nonce = v)
    ∧ (∀ v, (stateKey, v) ∈ queryPairs q →
        (∀ p ∈ queryPairs q, p.1 = stateKey → p.2 = v) → (extractParams q).state = v)
    ∧ extractParams (q ++ 0x26 :: extra) = extractParams q := by
  refine ⟨?_, ?_, ?_, ?_, ?_, ?_, ?_⟩
  · intro h
    rw [extractParams_lastValue, lastValue_eq_none _ _ h]
    rfl
  · intro h
    rw [extractParams_lastValue, lastValue_eq_none _ _ h]
    rfl
  · intro h
    rw [extractParams_lastValue, lastValue_eq_none _ _ h]
    rfl
  · intro v hmem huniq
    rw [extractParams_lastValue, lastValue_eq_some _ _ _ hmem huniq]
    rfl
  · intro v hmem huniq
    rw [extractParams_lastValue, lastValue_eq_some _ _ _ hmem huniq]
    rfl
  · intro v hmem huniq
    rw [extractParams_lastValue, lastValue_eq_some _ _ _ hmem huniq]
    rfl
  · rw [extractParams_lastValue, extractParams_lastValue, queryPairs_append,
      lastValue_append, lastValue_append, lastValue_append,
      lastValue_eq_none _ _ fun p hp => (hextra p hp).1,
      lastValue_eq_none _ _ fun p hp => (hextra p hp).2.1,
      lastValue_eq_none _ _ fun p hp => (hextra p hp).2.2]
    rfl

/-- Witness for C2 at the spec's own scenario: the query
`code=abc&state=xyz&nonce=123` captures `code = "abc"`, and appending the
unrelated pair `foo=bar` leaves the capture unchanged. -/
theorem c2_query_capture_witness :
    (extractParams (asciiBytes "code=abc&state=xyz&nonce=123")).code = asciiBytes "abc"
    ∧ extractParams (asciiBytes "code=abc&state=xyz&nonce=123" ++ 0x26 :: asciiBytes "foo=bar")
        = extractParams (asciiBytes "code=abc&state=xyz&nonce=123") := by
  have h := c2_query_capture (asciiBytes "code=abc&state=xyz&nonce=123")
    (asciiBytes "foo=bar") (by decide)
  exact ⟨h.2.2.2.1 (asciiBytes "abc") (by decide) (by decide), h.2.2.2.2.2.2⟩

/-- C3.  `callback` awaits the captured parameters and then calls the
backend exchange exactly once, with exactly the captured state, nonce and
code in that order; when the exchange fails, that error is the returned
value, unmodified, and the singleton invocation trace shows the exchange
was not retried. -/
theorem c3_callback_exchange {E A : Type} (p : OIDCCallbackParams)
    (exchange : Bytes → Bytes → Bytes → Except E A) (e : E)
    (hex : exchange p.state p.nonce p.code = Except.error e) :
    callbackRun (Except.ok p) exchange
      = (Except.ok (Except.error e), [(p.state, p.nonce, p.code)]) := by
  show (Except.ok (exchange p.state p.nonce p.code), [(p.state, p.nonce, p.code)]) = _
  rw [hex]

/-- Witness for C3 at the captured triple (code `abc`, nonce `123`,
state `xyz`) and an exchange oracle that fails with its arguments. -/
theorem c3_callback_exchange_witness :
    callbackRun (Except.ok (⟨asciiBytes "abc", asciiBytes "123", asciiBytes "xyz"⟩ :
        OIDCCallbackParams))
        (fun s n c => (Except.error (s ++ n ++ c) : Except Bytes Unit))
      = (Except.ok (Except.error (asciiBytes "xyz" ++ asciiBytes "123" ++ asciiBytes "abc")),
         [(asciiBytes "xyz", asciiBytes "123", asciiBytes "abc")]) :=
  c3_callback_exchange _ _ _ rfl

/-- C4.  When the backend authorization-URL request fails, `login`
returns exactly that error, and its effect trace contains the backend
request only: no bind is ever attempted and no listener is spawned, so
no listening socket exists after the failure. -/
theorem c4_auth_failure_fail_fast (cfg : OIDCLogin)
    (auth : Bytes → Option Bytes → Except Bytes Bytes) (bind : Bytes → Except Unit Unit)
    (e : Bytes)
    (h : auth (redirectUrl (cfg.port.getD 8250)) cfg.role = Except.error e) :
    login cfg auth bind
      = (.failed e, [.authRequest (redirectUrl (cfg.port.getD 8250)) cfg.role])
    ∧ ∀ a, LoginEvent.bindAttempt a ∉ (login cfg auth bind).2 := by
  have hl : login cfg auth bind
      = (.failed e, [.authRequest (redirectUrl (cfg.port.getD 8250)) cfg.role]) := by
    unfold login
    rw [h]
  refine ⟨hl, fun a => ?_⟩
  rw [hl]
  simp

/-- Witness for C4: a backend oracle that always fails with
`connection refused` under the default configuration. -/
theorem c4_auth_failure_fail_fast_witness :
    login ⟨none, none⟩ (fun _ _ => Except.error (asciiBytes "connection refused"))
        (fun _ => Except.ok ())
      = (.failed (asciiBytes "connection refused"), [.authRequest (redirectUrl 8250) none]) :=
  (c4_auth_failure_fail_fast ⟨none, none⟩ _ _ _ rfl).1

/-- C5.  Dropping the pending handle does not release the socket: from
the state right after `login` (task running, handle held, socket bound),
the drop transition leads to a state in which the task still runs and
the socket is still bound — per tokio's semantics, dropping the
`JoinHandle` of a `spawn_blocking` task only detaches it.  Moreover, in
this lifecycle a transition releases the socket only when it also
terminates the task (a request arriving), never through the drop. -/
theorem c5_drop_leaves_socket_bound :
    TaskStep initialTaskState
      { taskRunning := true, handleDropped := true, socketBound := true }
    ∧ ∀ s s' : ListenerTaskState, TaskStep s s' → s'.socketBound = false →
        s.socketBound = false ∨ s'.taskRunning = false := by
  constructor
  · exact TaskStep.dropHandle initialTaskState rfl
  · intro s s' hstep hsock
    cases hstep with
    | dropHandle h => exact Or.inl hsock
    | completeRequest h => exact Or.inr rfl

/-- Witness for C5's second conjunct at the request-arrival step out of
the abandoned state. -/
theorem c5_drop_leaves_socket_bound_witness :
    ({ taskRunning := true, handleDropped := true, socketBound := true } :
        ListenerTaskState).socketBound = false
    ∨ ({ taskRunning := false, handleDropped := true, socketBound := false } :
        ListenerTaskState).taskRunning = false :=
  c5_drop_leaves_socket_bound.2
    { taskRunning := true, handleDropped := true, socketBound := true }
    { taskRunning := false, handleDropped := true, socketBound := false }
    (TaskStep.completeRequest _ rfl) rfl

/-- C6.  When the backend call succeeds but binding the local server
fails, `login` ends fatally (the `Server::http(...).unwrap()` panic,
modelled as the `panicked` outcome) during the `login` call itself; the
trace shows exactly one bind attempt (no retry) and no spawned listener
left running. -/
theorem c6_bind_failure_fatal (cfg : OIDCLogin)
    (auth : Bytes → Option Bytes → Except Bytes Bytes) (bind : Bytes → Except Unit Unit)
    (u : Bytes)
    (ha : auth (redirectUrl (cfg.port.getD 8250)) cfg.role = Except.ok u)
    (hb : bind (bindAddr (cfg.port.getD 8250)) = Except.error ()) :
    login cfg auth bind
      = (.panicked, [.authRequest (redirectUrl (cfg.port.getD 8250)) cfg.role,
                     .bindAttempt (bindAddr (cfg.port.getD 8250))]) := by
  unfold login
  rw [ha, hb]

/-- Witness for C6 on port 8251 with a bind oracle that always fails. -/
theorem c6_bind_failure_fatal_witness :
    login ⟨some 8251, none⟩ (fun _ _ => Except.ok (asciiBytes "https://idp.example/authorize"))
        (fun _ => Except.error ())
      = (.panicked, [.authRequest (redirectUrl 8251) none, .bindAttempt (bindAddr 8251)]) :=
  c6_bind_failure_fatal ⟨some 8251, none⟩ _ _ _ rfl rfl

/-- C7.  The listener's request handling can panic: for the request
target `//[` (a legal HTTP request target), `base.join(request.url())`
fails with an invalid-IPv6-address parse error, so the `.unwrap()` at
oidc.rs line 74 panics instead of extracting parameters and responding.
This refutes the claim that request handling never crashes. -/
theorem c7_malformed_target_panics :
    handleRequest (asciiBytes "//[") = .error .invalidIpv6Address := by
  decide

/-- C9 (counterexample).  Not every first request completes the capture:
the request target `//[` makes the listener panic before any capture or
response, refuting the claim as stated over arbitrary paths. -/
theorem c9_any_first_request_counterexample :
    listenLoop defaultParams [asciiBytes "//["] = .panicked [] := by
  decide

/-- C9 (amended).  For every origin-form request target — any ordinary
path, with or without a query, `/oidc/callback` or not — a single
delivered request completes the capture with exactly the parameters
extracted from the target's query (the path itself is never inspected)
and is answered with the fixed `Success!` body. -/
theorem c9_first_request_captures (r : Bytes) (h : isOriginForm r = true) :
    listenLoop defaultParams [r]
      = .done (extractParams (queryOfRelative r)) [successBody] := by
  have h2 : r.take 2 ≠ [0x2F, 0x2F] := by
    intro hc
    unfold isOriginForm at h
    rw [hc] at h
    simp at h
  have hj : handleRequest r = .ok (extractParams (queryOfRelative r)) := by
    unfold handleRequest
    rw [urlJoin_not_protocol_relative r h2]
  show (match handleRequest r with
    | .error _ => LoopOutcome.panicked []
    | .ok p =>
      match listenLoop p [] with
      | .done q resp => .done q (successBody :: resp)
      | .panicked resp => .panicked (successBody :: resp)) = _
  rw [hj]
  rfl

/-- Witness for C9 (amended): a browser fetching `/favicon.ico` is
answered with the success body and yields the all-empty triple. -/
theorem c9_first_request_captures_witness :
    listenLoop defaultParams [asciiBytes "/favicon.ico"]
      = .done { code := [], nonce := [], state := [] } [successBody] :=
  (c9_first_request_captures (asciiBytes "/favicon.ico") (by decide)).trans (by decide)

/-- C8.  When the background task has failed (the awaited handle yields
an error), `callback` terminates with the propagated failure — the
`.unwrap()` panic — rather than hanging, and the token exchange is never
invoked. -/
theorem c8_task_failure_propagates {E A : Type}
    (exchange : Bytes → Bytes → Bytes → Except E A) :
    callbackRun (Except.error ()) exchange = (Except.error (), []) := rfl

/-- C10.  If a parameter among `code`/`nonce`/`state` occurs several
times in the query, the captured value is the one of the last
occurrence, because the pairs are collected into a map whose insert
overwrites earlier values. -/
theorem c10_duplicate_param_last_wins (q k v : Bytes) (ps1 ps2 : List (Bytes × Bytes))
    (hk : k = codeKey ∨ k = nonceKey ∨ k = stateKey)
    (hsplit : queryPairs q = ps1 ++ (k, v) :: ps2)
    (hlast : ∀ p ∈ ps2, p.1 ≠ k) :
    paramField (extractParams q) k = v := by
  have hlv : lastValue (queryPairs q) k = some v := by
    rw [hsplit, lastValue_append, lastValue_cons, lastValue_eq_none _ _ hlast, if_pos rfl]
    rfl
  rw [extractParams_lastValue]
  rcases hk with hk | hk | hk <;> subst hk
  · rw [paramField, if_pos rfl, hlv]
    rfl
  · rw [paramField, if_neg (by decide), if_pos rfl, hlv]
    rfl
  · rw [paramField, if_neg (by decide), if_neg (by decide), hlv]
    rfl

/-- Witness for C10: in `code=a&code=b` the captured code is `b`, the
last occurrence. -/
theorem c10_duplicate_param_last_wins_witness :
    paramField (extractParams (asciiBytes "code=a&code=b")) codeKey = asciiBytes "b" :=
  c10_duplicate_param_last_wins (asciiBytes "code=a&code=b") codeKey (asciiBytes "b")
    [(codeKey, asciiBytes "a")] [] (Or.inl rfl) (by decide) (by decide)

end VaultOidc
